import Mathlib

/-
Verification development for the NPFS (Neyman-Pearson Feature Selection)
implementation in src/npfs.py.  The Python code is shallowly embedded:
numpy arrays become lists of rationals, the global numpy RNG becomes an
explicit state threaded through the trials, the external FEAST library
becomes a name-to-oracle lookup, and the IEEE float special values that
the early-stopping loop produces (division by a zero trial count) are
modelled by an explicit type NF with fin / inf / neginf / nan.
-/

set_option allowUnsafeReducibility true in
attribute [semireducible] Rat.add Rat.mul Rat.inv Rat.sub Rat.ofScientific

namespace NPFS

/-- Model of an IEEE double as used by numpy in npfs.py: a finite rational,
positive or negative infinity, or nan.  Division by a zero trial count in
the early-stopping loop produces inf (for a positive numerator) or nan
(for 0/0), and comparisons with nan are false, exactly as in numpy. -/
inductive NF where
  | fin : ℚ → NF
  | inf : NF
  | neginf : NF
  | nan : NF
deriving DecidableEq, Repr

namespace NF

/-- IEEE addition on the modelled values. -/
def add : NF → NF → NF
  | nan, _ => nan
  | _, nan => nan
  | inf, neginf => nan
  | neginf, inf => nan
  | inf, _ => inf
  | _, inf => inf
  | neginf, _ => neginf
  | _, neginf => neginf
  | fin a, fin b => fin (a + b)

/-- IEEE subtraction on the modelled values. -/
def sub : NF → NF → NF
  | nan, _ => nan
  | _, nan => nan
  | inf, inf => nan
  | inf, _ => inf
  | neginf, neginf => nan
  | neginf, _ => neginf
  | fin _, inf => neginf
  | fin _, neginf => inf
  | fin a, fin b => fin (a - b)

/-- IEEE absolute value. -/
def abs : NF → NF
  | nan => nan
  | inf => inf
  | neginf => inf
  | fin a => fin (max a (-a))

/-- Division of a modelled value by a natural trial count, as numpy performs
it for p1 = Z.sum(axis=1)/b: a finite positive value divided by 0 is inf,
0/0 is nan. -/
def divNat : NF → ℕ → NF
  | nan, _ => nan
  | inf, _ => inf
  | neginf, _ => neginf
  | fin a, 0 => if a = 0 then nan else if 0 < a then inf else neginf
  | fin a, Nat.succ b => fin (a / ((b : ℚ) + 1))

/-- IEEE strict less-than: any comparison with nan is false. -/
def blt : NF → NF → Bool
  | nan, _ => false
  | _, nan => false
  | inf, _ => false
  | neginf, neginf => false
  | neginf, _ => true
  | fin _, inf => true
  | fin _, neginf => false
  | fin a, fin b => decide (a < b)

/-- Sum of a list of modelled values (np.sum semantics; the absorption rules
of nan and inf make the result independent of association order here). -/
def sum (l : List NF) : NF := l.foldl add (fin 0)

/-- Mean of a list of modelled values (np.mean: sum divided by the length;
the mean of an empty array is nan, via 0/0). -/
def mean (l : List NF) : NF := divNat (sum l) l.length

end NF

/-- Binomial coefficient written through factorials, as the scipy binomial
pmf is parameterised. -/
def binomCoeff (n k : ℕ) : ℕ := n.factorial / (k.factorial * (n - k).factorial)

/-- Probability mass function of Binomial(n, p) at k, with exact rational
arithmetic standing in for the float arithmetic of scipy.stats.binom. -/
def binomPmf (n : ℕ) (p : ℚ) (k : ℕ) : ℚ :=
  (binomCoeff n k : ℚ) * p ^ k * (1 - p) ^ (n - k)

/-- Cumulative distribution function of Binomial(n, p) at k. -/
def binomCdf (n : ℕ) (p : ℚ) (k : ℕ) : ℚ :=
  ((List.range (k + 1)).map (binomPmf n p)).sum

/-- Model of scipy.stats.binom.ppf(q, n, p) for 0 < q ≤ 1: the smallest
integer k with CDF(k) ≥ q.  Since CDF(n) = 1 the search over 0..n finds it;
the getD fallback is never reached for the parameters the code can produce. -/
def binomPpf (q : ℚ) (n : ℕ) (p : ℚ) : ℕ :=
  ((List.range (n + 1)).find? (fun k => decide (q ≤ binomCdf n p k))).getD n

/-- Type of the external FEAST feature-selection routine: it receives the
bootstrapped data, the bootstrapped labels and n_select and returns a list
of selected feature indices. -/
abbrev Method : Type := List (List ℚ) → List ℚ → ℕ → List ℕ

/-- Configuration object of the npfs class, with the constructor arguments
of __init__ (in order). -/
structure npfs where
  fs_method : String
  n_select : ℕ
  n_bootstraps : ℕ
  alpha : ℚ
  beta : ℚ
  parallel : Option ℕ
  min_improv : ℚ
deriving DecidableEq, Repr

/-- The early_stopping flag set by __init__: min_improv != 0. -/
def npfs.early_stopping (m : npfs) : Bool := decide (m.min_improv ≠ 0)

/-- Errors fit can raise.  The type errors of __check_data cannot arise in
the typed embedding; methodNotFound models the attribute lookup failure of
getattr(feast, fs_method); invalidProbability is the ValueError of fit. -/
inductive FitError where
  | lengthMismatch : FitError
  | methodNotFound : FitError
  | invalidProbability : FitError
deriving DecidableEq, Repr

/-- Float cast 1.0*data of a two-dimensional array: a freshly built value. -/
def castData (data : List (List ℚ)) : List (List ℚ) :=
  data.map (fun row => row.map (fun x => 1 * x))

/-- Float cast 1.0*labels of a one-dimensional array: a freshly built value. -/
def castLabels (labels : List ℚ) : List ℚ := labels.map (fun x => 1 * x)

/-- Model of __check_data: the length check, then the float cast
1.0*data, 1.0*labels returning fresh arrays. -/
def check_data (data : List (List ℚ)) (labels : List ℚ) :
    Except FitError (List (List ℚ) × List ℚ) :=
  if data.length ≠ labels.length then Except.error FitError.lengthMismatch
  else Except.ok (castData data, castLabels labels)

/-- Number of features of a data matrix: len(data.transpose()) for a
rectangular nonempty numpy array, i.e. the length of the first row. -/
def nFeaturesOf (data : List (List ℚ)) : ℕ := (data.headD []).length

/-- Model of np.random.randint(0, bound, count): count successive draws from
the global RNG state, each strictly below bound. -/
def randints {σ : Type} (randint : σ → ℕ → ℕ × σ) (bound : ℕ) :
    ℕ → σ → List ℕ × σ
  | 0, s => ([], s)
  | Nat.succ n, s =>
    let v := randint s bound
    let rest := randints randint bound n v.2
    (v.1 :: rest.1, rest.2)

/-- Model of npfs.boot_iteration: draw n_observations bootstrap indices,
take the resampled rows of data and labels, and run the selection method. -/
def boot_iteration {σ : Type} (randint : σ → ℕ → ℕ × σ) (method : Method)
    (data : List (List ℚ)) (labels : List ℚ) (n_observations n_select : ℕ)
    (s : σ) : List ℕ × σ :=
  let idx := randints randint n_observations n_observations s
  let data_sub := idx.1.map (fun i => data.getD i [])
  let labels_sub := idx.1.map (fun i => labels.getD i 0)
  (method data_sub labels_sub n_select, idx.2)

/-- One column of the Bernoulli matrix: Z[sf, b] = 1 writes a 1 in the rows
listed in sf and leaves the others at 0.  The oracle is expected to return
indices below n_features (numpy would raise an IndexError on an
out-of-range index); every oracle used by the fixtures below selects only
in-range features. -/
def colOf (n_features : ℕ) (sf : List ℕ) : List ℚ :=
  (List.range n_features).map (fun i => if i ∈ sf then (1 : ℚ) else 0)

/-- Row sums of a column-major matrix: Z.sum(axis=1) restricted to the given
columns (absent trailing columns of the allocation are all zero and change
nothing). -/
def rowSums (n_features : ℕ) (cols : List (List ℚ)) : List ℚ :=
  (List.range n_features).map (fun i => (cols.map (fun c => c.getD i 0)).sum)

/-- Sequential loop without early stopping: for b in range(n_bootstraps),
one boot_iteration per column, in order, threading the global RNG state. -/
def seqLoop {σ : Type} (randint : σ → ℕ → ℕ × σ) (method : Method)
    (data : List (List ℚ)) (labels : List ℚ) (nobs nsel nf : ℕ) :
    ℕ → σ → List (List ℚ) × σ
  | 0, s => ([], s)
  | Nat.succ n, s =>
    let bi := boot_iteration randint method data labels nobs nsel s
    let rest := seqLoop randint method data labels nobs nsel nf n bi.2
    (colOf nf bi.1 :: rest.1, rest.2)

/-- Result of the early-stopping loop: the populated columns, the run_time
attribute (set only when the break fired), the list of divisors b used for
the running frequency p1 = Z.sum(axis=1)/b (instrumentation making the
division-by-zero at the first trial observable), and the final RNG state. -/
structure EarlyOut (σ : Type) where
  cols : List (List ℚ)
  run_time : Option ℕ
  divisors : List ℕ
  state : σ

/-- Running frequency vector p1 = Z.sum(axis=1)/b of the early-stopping
loop: the per-feature counts over the populated columns divided by the loop
index b, in the modelled numpy float arithmetic (b = 0 divides by zero). -/
def earlyP1 (nf b : ℕ) (cols : List (List ℚ)) : List NF :=
  (rowSums nf cols).map (fun c => NF.divNat (NF.fin c) b)

/-- The convergence statistic d = np.abs(p1 - p1_old).mean(). -/
def deltaMean (p1 p1_old : List NF) : NF :=
  NF.mean (List.zipWith (fun x y => NF.abs (NF.sub x y)) p1 p1_old)

/-- Sequential loop with early stopping, exactly as lines 80-90 of npfs.py:
at loop index b the new column is written, p1 = Z.sum(axis=1)/b is computed
(dividing by the loop index b, which is 0 at the first trial), d is the mean
absolute change against p1_old, and the loop breaks with run_time = b when
d < min_improv, otherwise p1_old is updated. -/
def earlyLoopAux {σ : Type} (randint : σ → ℕ → ℕ × σ) (method : Method)
    (data : List (List ℚ)) (labels : List ℚ) (nobs nsel nf : ℕ) (mi : ℚ) :
    ℕ → ℕ → List NF → List (List ℚ) → List ℕ → σ → EarlyOut σ
  | 0, _, _, cols, divs, s => ⟨cols, none, divs, s⟩
  | Nat.succ fuel, b, p1_old, cols, divs, s =>
    let bi := boot_iteration randint method data labels nobs nsel s
    let cols' := cols ++ [colOf nf bi.1]
    let p1 := earlyP1 nf b cols'
    let d := deltaMean p1 p1_old
    let divs' := divs ++ [b]
    if NF.blt d (NF.fin mi) then ⟨cols', some b, divs', bi.2⟩
    else earlyLoopAux randint method data labels nobs nsel nf mi fuel (b + 1)
      p1 cols' divs' bi.2

/-- Result of the (k+1)-th boot_iteration of a fresh RNG stream started in
state s.  In the parallel mode each forked worker inherits the parent RNG
state at pool creation and threads its own copy of the stream through the
tasks it processes, so the task with k prior tasks on its worker gets
exactly this value. -/
def bootLast {σ : Type} (randint : σ → ℕ → ℕ × σ) (method : Method)
    (data : List (List ℚ)) (labels : List ℚ) (nobs nsel : ℕ) :
    ℕ → σ → List ℕ
  | 0, s => (boot_iteration randint method data labels nobs nsel s).1
  | Nat.succ k, s =>
    bootLast randint method data labels nobs nsel k
      (boot_iteration randint method data labels nobs nsel s).2

/-- Number of earlier tasks assigned to the same worker as task x. -/
def priorCount (sched : ℕ → ℕ) (x : ℕ) : ℕ :=
  ((List.range x).filter (fun y => decide (sched y = sched x))).length

/-- Model of pool.map over the n_bootstraps tasks: sfs[x] is the selection
of task x.  Workers are forked processes: each inherits the parent state s0
of the global numpy RNG, the scheduler sched assigns tasks to workers, and
a worker processes its tasks in ascending task order, so task x draws from
the stream started at s0 after priorCount sched x earlier tasks. -/
def parSfs {σ : Type} (randint : σ → ℕ → ℕ × σ) (method : Method)
    (data : List (List ℚ)) (labels : List ℚ) (nobs nsel : ℕ)
    (sched : ℕ → ℕ) (nboot : ℕ) (s0 : σ) : List (List ℕ) :=
  (List.range nboot).map (fun x =>
    bootLast randint method data labels nobs nsel (priorCount sched x) s0)

/-- The trial phase of fit (lines 74-96): the three mutually exclusive
execution modes, returning the populated columns, the run_time attribute
(only ever set by the early-stopping break) and the divisor trace. -/
def runTrials {σ : Type} (randint : σ → ℕ → ℕ × σ) (method : Method)
    (sched : ℕ → ℕ) (m : npfs) (data : List (List ℚ)) (labels : List ℚ)
    (s0 : σ) : List (List ℚ) × Option ℕ × List ℕ :=
  let nobs := data.length
  let nf := nFeaturesOf data
  match m.parallel with
  | none =>
    if m.early_stopping = false then
      let r := seqLoop randint method data labels nobs m.n_select nf
        m.n_bootstraps s0
      (r.1, none, [])
    else
      let eo := earlyLoopAux randint method data labels nobs m.n_select nf
        m.min_improv m.n_bootstraps 0 (List.replicate nf (NF.fin 0)) [] [] s0
      (eo.cols, eo.run_time, eo.divisors)
  | some _ =>
    let sfs := parSfs randint method data labels nobs m.n_select sched
      m.n_bootstraps s0
    (sfs.map (colOf nf), none, [])

/-- Observable result of a successful fit: the return value
selected_features, the retained attributes Bernoulli_matrix (stored here as
the list of its n_bootstraps columns Z[:, b]) and run_time (present only
when the early-stopping break fired), and the intermediate quantities
n_features, n_observations, p, delta and z for the statements below. -/
structure FitOutcome where
  selected_features : List ℕ
  Bernoulli_matrix : List (List ℚ)
  run_time : Option ℕ
  n_features : ℕ
  n_observations : ℕ
  p : ℚ
  delta : ℕ
  z : List ℚ
deriving DecidableEq, Repr

/-- Decidable equality of Except values, used by the concrete evaluations. -/
instance exceptDecEq {ε α : Type} [DecidableEq ε] [DecidableEq α] :
    DecidableEq (Except ε α)
  | Except.ok x, Except.ok y =>
    if h : x = y then isTrue (by rw [h])
    else isFalse (fun hh => h (Except.ok.inj hh))
  | Except.error x, Except.error y =>
    if h : x = y then isTrue (by rw [h])
    else isFalse (fun hh => h (Except.error.inj hh))
  | Except.ok _, Except.error _ => isFalse (fun hh => Except.noConfusion hh)
  | Except.error _, Except.ok _ => isFalse (fun hh => Except.noConfusion hh)

/-- Result of fit together with the trial instrumentation: how many
boot_iteration trials were run and which divisors b the early-stopping
frequency computation used. -/
structure FitTrace where
  result : Except FitError FitOutcome
  trials_executed : ℕ
  divisors : List ℕ
deriving DecidableEq, Repr

/-- The threshold phase of fit (lines 98-114): z = np.sum(Z, axis=1) over
the full allocation (executed columns plus the zero columns never written),
the null probability p, the ValueError when p > 1 (raised only here, after
the trials), delta = binom.ppf(1 - alpha, n_bootstraps, p), and the final
filter z[k] > delta. -/
def fitFinish (m : npfs) (nf nobs : ℕ) (cols : List (List ℚ))
    (rt : Option ℕ) (divs : List ℕ) : FitTrace :=
  let Z := cols ++ List.replicate (m.n_bootstraps - cols.length) (colOf nf [])
  let z := rowSums nf Z
  let p := (m.n_select : ℚ) / (nf : ℚ) + m.beta
  if p > 1 then ⟨Except.error FitError.invalidProbability, cols.length, divs⟩
  else
    let delta := binomPpf (1 - m.alpha) m.n_bootstraps p
    ⟨Except.ok
      ⟨(List.range nf).filter (fun k => decide (z.getD k 0 > (delta : ℚ))),
        Z, rt, nf, nobs, p, delta, z⟩,
      cols.length, divs⟩

/-- Model of npfs.fit: validate and cast the inputs, resolve the selection
method by name against the FEAST library, run the trials in the configured
execution mode, then compute the threshold and the selected features. -/
def fit {σ : Type} (randint : σ → ℕ → ℕ × σ) (feastLib : String → Option Method)
    (sched : ℕ → ℕ) (m : npfs) (data0 : List (List ℚ)) (labels0 : List ℚ)
    (s0 : σ) : FitTrace :=
  match check_data data0 labels0 with
  | Except.error e => ⟨Except.error e, 0, []⟩
  | Except.ok dl =>
    match feastLib m.fs_method with
    | none => ⟨Except.error FitError.methodNotFound, 0, []⟩
    | some method =>
      let rtd := runTrials randint method sched m dl.1 dl.2 s0
      fitFinish m (nFeaturesOf dl.1) dl.1.length rtd.1 rtd.2.1 rtd.2.2

/-- Extractor used by the concrete witnesses: the outcome of a trace known
to be successful. -/
def okOutcome (t : FitTrace) : FitOutcome :=
  match t.result with
  | Except.ok o => o
  | Except.error _ => ⟨[], [], none, 0, 0, 0, 0, []⟩

/- Heap model for the frame property: numpy arrays live in a heap of cells,
fit allocates fresh cells for the float casts, the bootstrap subsamples and
the matrix Z, and the only cell ever written in place is Z. -/

/-- A numpy array value: two-dimensional or one-dimensional. -/
inductive PyVal where
  | arr2 : List (List ℚ) → PyVal
  | arr1 : List ℚ → PyVal
deriving DecidableEq, Repr

/-- The heap: cell identifiers are positions in the list. -/
abbrev Heap : Type := List PyVal

/-- Allocate a fresh cell, returning the extended heap and the new id. -/
def hAlloc (h : Heap) (v : PyVal) : Heap × ℕ := (h ++ [v], h.length)

/-- Write a cell in place. -/
def hSet (h : Heap) (i : ℕ) (v : PyVal) : Heap := h.set i v

/-- Read a two-dimensional array cell. -/
def hGet2 (h : Heap) (i : ℕ) : List (List ℚ) :=
  match h.getD i (PyVal.arr1 []) with
  | PyVal.arr2 a => a
  | PyVal.arr1 _ => []

/-- Read a one-dimensional array cell. -/
def hGet1 (h : Heap) (i : ℕ) : List ℚ :=
  match h.getD i (PyVal.arr1 []) with
  | PyVal.arr1 a => a
  | PyVal.arr2 _ => []

/-- In-place column write Z[sf, b] = 1 on a row-major matrix. -/
def writeCol (Z : List (List ℚ)) (sf : List ℕ) (b : ℕ) : List (List ℚ) :=
  (List.range Z.length).map (fun i =>
    if i ∈ sf then (Z.getD i []).set b 1 else Z.getD i [])

/-- Heap-level boot_iteration: reads the cast data and labels cells, and
allocates fresh cells for the fancy-indexing results data_sub and
labels_sub; nothing is written in place. -/
def hBoot {σ : Type} (randint : σ → ℕ → ℕ × σ) (method : Method)
    (dId lId nobs nsel : ℕ) (h : Heap) (s : σ) : Heap × List ℕ × σ :=
  let idx := randints randint nobs nobs s
  let data_sub := idx.1.map (fun i => (hGet2 h dId).getD i [])
  let labels_sub := idx.1.map (fun i => (hGet1 h lId).getD i 0)
  let h1 := (hAlloc h (PyVal.arr2 data_sub)).1
  let h2 := (hAlloc h1 (PyVal.arr1 labels_sub)).1
  (h2, method data_sub labels_sub nsel, idx.2)

/-- Heap-level sequential loop without early stopping: the only in-place
write of each iteration is the column write into the cell of Z. -/
def hSeqLoop {σ : Type} (randint : σ → ℕ → ℕ × σ) (method : Method)
    (dId lId zId nobs nsel : ℕ) : ℕ → ℕ → Heap → σ → Heap × σ
  | 0, _, h, s => (h, s)
  | Nat.succ fuel, b, h, s =>
    let r := hBoot randint method dId lId nobs nsel h s
    let h2 := hSet r.1 zId (PyVal.arr2 (writeCol (hGet2 r.1 zId) r.2.1 b))
    hSeqLoop randint method dId lId zId nobs nsel fuel (b + 1) h2 r.2.2

/-- Heap-level sequential loop with early stopping; the run_time attribute
lives on the object, not in an array cell, so it is not tracked here. -/
def hEarlyLoop {σ : Type} (randint : σ → ℕ → ℕ × σ) (method : Method)
    (dId lId zId nobs nsel : ℕ) (mi : ℚ) :
    ℕ → ℕ → List NF → Heap → σ → Heap × σ
  | 0, _, _, h, s => (h, s)
  | Nat.succ fuel, b, p1_old, h, s =>
    let r := hBoot randint method dId lId nobs nsel h s
    let h2 := hSet r.1 zId (PyVal.arr2 (writeCol (hGet2 r.1 zId) r.2.1 b))
    let p1 := (hGet2 h2 zId).map (fun row => NF.divNat (NF.fin row.sum) b)
    let d := NF.mean (List.zipWith (fun x y => NF.abs (NF.sub x y)) p1 p1_old)
    if NF.blt d (NF.fin mi) then (h2, r.2.2)
    else hEarlyLoop randint method dId lId zId nobs nsel mi fuel (b + 1) p1
      h2 r.2.2

/-- Heap-level assembly of the parallel results: the coordinator writes the
column of each task into the cell of Z; workers are forked processes whose
own heaps are copies, so their allocations never touch the parent heap. -/
def hParWrite (zId : ℕ) : List (List ℕ) → ℕ → Heap → Heap
  | [], _, h => h
  | sf :: rest, x, h =>
    hParWrite zId rest (x + 1)
      (hSet h zId (PyVal.arr2 (writeCol (hGet2 h zId) sf x)))

/-- Heap-level trial phase: the three execution modes over the heap; in the
parallel mode workers run on forked copies, so only the assembly into the
cell of Z touches the parent heap. -/
def hRunTrials {σ : Type} (randint : σ → ℕ → ℕ × σ) (method : Method)
    (sched : ℕ → ℕ) (m : npfs) (dId lId zId nobs nf : ℕ) (h : Heap)
    (s0 : σ) : Heap :=
  match m.parallel with
  | none =>
    if m.early_stopping = false then
      (hSeqLoop randint method dId lId zId nobs m.n_select
        m.n_bootstraps 0 h s0).1
    else
      (hEarlyLoop randint method dId lId zId nobs m.n_select
        m.min_improv m.n_bootstraps 0 (List.replicate nf (NF.fin 0)) h s0).1
  | some _ =>
    hParWrite zId
      (parSfs randint method (hGet2 h dId) (hGet1 h lId) nobs
        m.n_select sched m.n_bootstraps s0) 0 h

/-- Heap-level model of fit: __check_data allocates the float-cast copies
1.0*data and 1.0*labels as fresh cells, Z is allocated fresh, and the trial
loops write only into the cell of Z.  The caller cells dataId and labelsId
are only ever read. -/
def heapFit {σ : Type} (randint : σ → ℕ → ℕ × σ)
    (feastLib : String → Option Method) (sched : ℕ → ℕ) (m : npfs)
    (dataId labelsId : ℕ) (h : Heap) (s0 : σ) :
    Heap × Except FitError (List ℕ) :=
  let data0 := hGet2 h dataId
  let labels0 := hGet1 h labelsId
  if data0.length ≠ labels0.length then (h, Except.error FitError.lengthMismatch)
  else
    let a1 := hAlloc h (PyVal.arr2 (castData data0))
    let a2 := hAlloc a1.1 (PyVal.arr1 (castLabels labels0))
    match feastLib m.fs_method with
    | none => (a2.1, Except.error FitError.methodNotFound)
    | some method =>
      let dId := a1.2
      let lId := a2.2
      let nobs := (hGet2 a2.1 dId).length
      let nf := nFeaturesOf (hGet2 a2.1 dId)
      let a3 := hAlloc a2.1
        (PyVal.arr2 (List.replicate nf (List.replicate m.n_bootstraps 0)))
      let zId := a3.2
      let h4 := hRunTrials randint method sched m dId lId zId nobs nf a3.1 s0
      let z := (hGet2 h4 zId).map List.sum
      let p := (m.n_select : ℚ) / (nf : ℚ) + m.beta
      if p > 1 then (h4, Except.error FitError.invalidProbability)
      else
        let delta := binomPpf (1 - m.alpha) m.n_bootstraps p
        (h4, Except.ok
          ((List.range nf).filter (fun k => decide (z.getD k 0 > (delta : ℚ)))))

/- Concrete fixtures for the witnesses and counterexamples. -/

/-- Toy deterministic RNG state update. -/
def lcg5 (s : ℕ) : ℕ := (s + 1) % 5

/-- Toy implementation of the randint interface over lcg5. -/
def randint5 (s bound : ℕ) : ℕ × ℕ := (lcg5 s % bound, lcg5 s)

/-- Selection oracle that always selects feature 0. -/
def constMethod : Method := fun _ _ _ => [0]

/-- Selection oracle sensitive to the bootstrap sample: it selects feature 0
when the first components of the resampled rows sum to at most 5, feature 1
otherwise. -/
def sumflagMethod : Method := fun ds _ _ =>
  if (ds.map (fun r => r.headD 0)).sum ≤ 5 then [0] else [1]

/-- Concrete stand-in for the FEAST library used by the fixtures. -/
def demoLib : String → Option Method := fun name =>
  if name = "const0" then some constMethod
  else if name = "sumflag" then some sumflagMethod
  else none

/-- Trivial scheduler for the sequential runs (unused there). -/
def sched0 : ℕ → ℕ := fun _ => 0

/-- Two-worker scheduler: task x runs on worker x % 2. -/
def sched2 : ℕ → ℕ := fun x => x % 2

/-- One observation with two features. -/
def data2 : List (List ℚ) := [[0, 0]]

/-- One label. -/
def labels1 : List ℚ := [0]

/-- Three observations with two features; the first feature carries the
values 0, 2 and 5, so both indices the sumflag oracle can return are in
range. -/
def data4 : List (List ℚ) := [[0, 0], [2, 0], [5, 0]]

/-- Three labels. -/
def labels3 : List ℚ := [0, 0, 0]

/-- One observation with ten features. -/
def data10 : List (List ℚ) := [List.replicate 10 0]

/-- Early-stopping configuration over the const0 oracle. -/
def cfgEarly (nboot : ℕ) (mi : ℚ) : npfs :=
  ⟨"const0", 1, nboot, 1 / 100, 0, none, mi⟩

/-- Configuration with p = 3/2 > 1. -/
def cfgC3 : npfs := ⟨"const0", 3, 2, 1 / 100, 0, none, 0⟩

/-- Sequential configuration of the divergence fixture. -/
def cfgC4s : npfs := ⟨"sumflag", 1, 2, 1 / 100, 0, none, 0⟩

/-- Parallel (two workers) configuration of the divergence fixture. -/
def cfgC4p : npfs := ⟨"sumflag", 1, 2, 1 / 100, 0, some 2, 0⟩

/-- Configuration with an unresolvable method name. -/
def cfgC6 : npfs := ⟨"nope", 1, 3, 1 / 100, 0, none, 0⟩

/-- The configuration of the numerical claim: n_select = 3, n_bootstraps
= 100, alpha = 0.01, beta = 0. -/
def cfgC7 : npfs := ⟨"const0", 3, 100, 1 / 100, 0, none, 0⟩

/-- Configuration with p^n_bootstraps ≤ alpha: an always-selected feature
passes the threshold. -/
def cfgC8 : npfs := ⟨"const0", 1, 5, 1 / 16, 0, none, 0⟩

/-- Configuration with p^n_bootstraps > alpha: the threshold saturates at
n_bootstraps and even an always-selected feature is excluded. -/
def cfgC8x : npfs := ⟨"const0", 1, 5, 1 / 100, 0, none, 0⟩

/-- Sequential configuration without early stopping. -/
def cfgC9 : npfs := ⟨"const0", 1, 4, 1 / 100, 0, none, 0⟩

/-- Early-stopped run of the C1 fixture. -/
def fitC1 : FitTrace := fit randint5 demoLib sched0 (cfgEarly 10 (1 / 2)) data2 labels1 0

/-- Early-stopped run of the C2 fixture. -/
def fitC2 : FitTrace := fit randint5 demoLib sched0 (cfgEarly 10 (1 / 4)) data2 labels1 0

/-- Run of the invalid-probability fixture. -/
def fitC3 : FitTrace := fit randint5 demoLib sched0 cfgC3 data2 labels1 0

/-- Sequential run of the divergence fixture. -/
def fitC4s : FitTrace := fit randint5 demoLib sched2 cfgC4s data4 labels3 0

/-- Parallel run of the divergence fixture. -/
def fitC4p : FitTrace := fit randint5 demoLib sched2 cfgC4p data4 labels3 0

/-- Early-stopped run of the C5 fixture. -/
def fitC5 : FitTrace := fit randint5 demoLib sched0 (cfgEarly 5 1) data2 labels1 0

/-- Run of the unresolvable-method fixture. -/
def fitC6 : FitTrace := fit randint5 demoLib sched0 cfgC6 data2 labels1 0

/-- Run of the numerical fixture. -/
def fitC7 : FitTrace := fit randint5 demoLib sched0 cfgC7 data10 labels1 0

/-- Run of the inclusive-threshold fixture. -/
def fitC8 : FitTrace := fit randint5 demoLib sched0 cfgC8 data2 labels1 0

/-- Run of the saturated-threshold fixture. -/
def fitC8x : FitTrace := fit randint5 demoLib sched0 cfgC8x data2 labels1 0

/-- Run of the no-early-stopping fixture. -/
def fitC9 : FitTrace := fit randint5 demoLib sched0 cfgC9 data2 labels1 0

/-- Initial heap of the frame fixture: the caller arrays in cells 0 and 1. -/
def heapC10 : Heap := [PyVal.arr2 [[0, 0]], PyVal.arr1 [0]]

/-- Heap-level run of the frame fixture. -/
def heapFitC10 : Heap × Except FitError (List ℕ) :=
  heapFit randint5 demoLib sched0 (cfgEarly 3 0) 0 1 heapC10 0

/- Lemmas about the modelled numpy float arithmetic. -/

/-- A nan or inf value never compares strictly below a finite bound. -/
theorem NF.blt_fin_of_nanInf (x : NF) (mi : ℚ) (h : x = NF.nan ∨ x = NF.inf) :
    NF.blt x (NF.fin mi) = false := by
  rcases h with h | h <;> subst h <;> rfl

/-- Folding IEEE addition over nan-or-inf values from a nan-or-inf
accumulator stays nan or inf. -/
theorem NF.foldl_add_nanInf : ∀ (l : List NF) (acc : NF),
    (acc = NF.nan ∨ acc = NF.inf) → (∀ x ∈ l, x = NF.nan ∨ x = NF.inf) →
    (l.foldl NF.add acc = NF.nan ∨ l.foldl NF.add acc = NF.inf)
  | [], _, hacc, _ => hacc
  | x :: xs, acc, hacc, hl => by
    have hx := hl x (List.mem_cons_self x xs)
    have hacc' : NF.add acc x = NF.nan ∨ NF.add acc x = NF.inf := by
      rcases hacc with h | h <;> rcases hx with h2 | h2 <;> subst h <;> subst h2 <;>
        simp [NF.add]
    exact NF.foldl_add_nanInf xs (NF.add acc x) hacc'
      (fun y hy => hl y (List.mem_cons_of_mem x hy))

/-- The sum of a nonempty list of nan-or-inf values is nan or inf. -/
theorem NF.sum_nanInf (x : NF) (xs : List NF)
    (h : ∀ y ∈ x :: xs, y = NF.nan ∨ y = NF.inf) :
    NF.sum (x :: xs) = NF.nan ∨ NF.sum (x :: xs) = NF.inf := by
  have hx := h x (List.mem_cons_self x xs)
  have hstart : NF.add (NF.fin 0) x = NF.nan ∨ NF.add (NF.fin 0) x = NF.inf := by
    rcases hx with h2 | h2 <;> subst h2 <;> simp [NF.add]
  exact NF.foldl_add_nanInf xs (NF.add (NF.fin 0) x) hstart
    (fun y hy => h y (List.mem_cons_of_mem x hy))

/-- The mean of a list of nan-or-inf values is nan or inf (for the empty
list it is nan, via 0/0). -/
theorem NF.mean_nanInf (l : List NF) (h : ∀ x ∈ l, x = NF.nan ∨ x = NF.inf) :
    NF.mean l = NF.nan ∨ NF.mean l = NF.inf := by
  cases l with
  | nil => left; rfl
  | cons x xs =>
    rcases NF.sum_nanInf x xs h with h2 | h2 <;>
      simp [NF.mean, h2, NF.divNat]

/-- Dividing a finite value by the trial count 0 yields nan, inf or
negative infinity. -/
theorem NF.divNat_fin_zero (c : ℚ) :
    NF.divNat (NF.fin c) 0 = NF.nan ∨ NF.divNat (NF.fin c) 0 = NF.inf ∨
    NF.divNat (NF.fin c) 0 = NF.neginf := by
  simp only [NF.divNat]
  split_ifs <;> simp

/-- The absolute difference between a division-by-zero result and the
initial frequency 0 is nan or inf. -/
theorem NF.abs_sub_div0_zero (c : ℚ) :
    NF.abs (NF.sub (NF.divNat (NF.fin c) 0) (NF.fin 0)) = NF.nan ∨
    NF.abs (NF.sub (NF.divNat (NF.fin c) 0) (NF.fin 0)) = NF.inf := by
  simp only [NF.divNat]
  by_cases h0 : c = 0
  · simp [h0, NF.sub, NF.abs]
  · by_cases hpos : 0 < c
    · simp [h0, hpos, NF.sub, NF.abs]
    · simp [h0, hpos, NF.sub, NF.abs]

/-- The absolute difference between a finite value and a nonfinite one is
nan or inf. -/
theorem NF.abs_sub_fin_nonf (a : ℚ) (y : NF)
    (hy : y = NF.nan ∨ y = NF.inf ∨ y = NF.neginf) :
    NF.abs (NF.sub (NF.fin a) y) = NF.nan ∨
    NF.abs (NF.sub (NF.fin a) y) = NF.inf := by
  rcases hy with h | h | h <;> subst h <;> simp [NF.sub, NF.abs]

/-- Pointwise property transfer through zipWith. -/
theorem zipWith_pred {α β γ : Type} (f : α → β → γ) (P : γ → Prop) :
    ∀ (l₁ : List α) (l₂ : List β),
      (∀ a ∈ l₁, ∀ b ∈ l₂, P (f a b)) → ∀ x ∈ List.zipWith f l₁ l₂, P x
  | [], _, _, x, hx => absurd hx (by simp)
  | _ :: _, [], _, x, hx => absurd hx (by simp)
  | a :: as, b :: bs, h, x, hx => by
    rcases List.mem_cons.mp hx with h1 | h1
    · subst h1; exact h a (by simp) b (by simp)
    · exact zipWith_pred f P as bs
        (fun a2 ha2 b2 hb2 =>
          h a2 (List.mem_cons_of_mem _ ha2) b2 (List.mem_cons_of_mem _ hb2))
        x h1

/-- At the first trial (loop index b = 0) the convergence statistic is nan
or inf: every entry of p1 is a division by zero. -/
theorem deltaMean_b0 (nf n : ℕ) (cols : List (List ℚ)) :
    deltaMean (earlyP1 nf 0 cols) (List.replicate n (NF.fin 0)) = NF.nan ∨
    deltaMean (earlyP1 nf 0 cols) (List.replicate n (NF.fin 0)) = NF.inf := by
  apply NF.mean_nanInf
  refine zipWith_pred _ _ _ _ ?_
  intro a ha b hb
  obtain ⟨c, _, rfl⟩ := List.mem_map.mp ha
  have hb0 : b = NF.fin 0 := List.eq_of_mem_replicate hb
  subst hb0
  exact NF.abs_sub_div0_zero c

/-- At the second trial (loop index b = 1) the convergence statistic is
still nan or inf: p1_old is the division-by-zero vector of the first trial. -/
theorem deltaMean_b1 (nf nf0 : ℕ) (cols cols0 : List (List ℚ)) :
    deltaMean (earlyP1 nf 1 cols) (earlyP1 nf0 0 cols0) = NF.nan ∨
    deltaMean (earlyP1 nf 1 cols) (earlyP1 nf0 0 cols0) = NF.inf := by
  apply NF.mean_nanInf
  refine zipWith_pred _ _ _ _ ?_
  intro a ha b hb
  obtain ⟨c, _, rfl⟩ := List.mem_map.mp ha
  obtain ⟨c0, _, rfl⟩ := List.mem_map.mp hb
  have h1 : NF.divNat (NF.fin c) 1 = NF.fin (c / ((0 : ℚ) + 1)) := rfl
  rw [h1]
  exact NF.abs_sub_fin_nonf _ _ (NF.divNat_fin_zero c0)

/- Step equations and the structural invariant of the early-stopping loop. -/

/-- Unfolding of one early-stopping iteration when the break fires. -/
theorem earlyLoopAux_step_stop {σ : Type} (randint : σ → ℕ → ℕ × σ)
    (method : Method) (data : List (List ℚ)) (labels : List ℚ)
    (nobs nsel nf : ℕ) (mi : ℚ) (fuel b : ℕ) (p1_old : List NF)
    (cols : List (List ℚ)) (divs : List ℕ) (s : σ)
    (hcond : NF.blt (deltaMean (earlyP1 nf b
        (cols ++ [colOf nf (boot_iteration randint method data labels nobs nsel s).1]))
        p1_old) (NF.fin mi) = true) :
    earlyLoopAux randint method data labels nobs nsel nf mi (Nat.succ fuel) b
        p1_old cols divs s =
      ⟨cols ++ [colOf nf (boot_iteration randint method data labels nobs nsel s).1],
        some b, divs ++ [b],
        (boot_iteration randint method data labels nobs nsel s).2⟩ := by
  simp only [earlyLoopAux]
  rw [hcond, if_pos rfl]

/-- Unfolding of one early-stopping iteration when the break does not fire. -/
theorem earlyLoopAux_step_go {σ : Type} (randint : σ → ℕ → ℕ × σ)
    (method : Method) (data : List (List ℚ)) (labels : List ℚ)
    (nobs nsel nf : ℕ) (mi : ℚ) (fuel b : ℕ) (p1_old : List NF)
    (cols : List (List ℚ)) (divs : List ℕ) (s : σ)
    (hcond : NF.blt (deltaMean (earlyP1 nf b
        (cols ++ [colOf nf (boot_iteration randint method data labels nobs nsel s).1]))
        p1_old) (NF.fin mi) = false) :
    earlyLoopAux randint method data labels nobs nsel nf mi (Nat.succ fuel) b
        p1_old cols divs s =
      earlyLoopAux randint method data labels nobs nsel nf mi fuel (b + 1)
        (earlyP1 nf b
          (cols ++ [colOf nf (boot_iteration randint method data labels nobs nsel s).1]))
        (cols ++ [colOf nf (boot_iteration randint method data labels nobs nsel s).1])
        (divs ++ [b])
        (boot_iteration randint method data labels nobs nsel s).2 := by
  simp only [earlyLoopAux]
  rw [hcond, if_neg Bool.false_ne_true]

/-- Length of a Bernoulli column. -/
theorem colOf_length (nf : ℕ) (sf : List ℕ) : (colOf nf sf).length = nf := by
  simp [colOf]

/-- Structural invariant of the early-stopping loop: some k ≤ fuel trials
execute (at least one when fuel allows), each appending one column and
recording its loop index b as the frequency divisor, and when the break
fires at index x exactly x + 1 - b further trials were run. -/
theorem earlyLoopAux_master {σ : Type} (randint : σ → ℕ → ℕ × σ)
    (method : Method) (data : List (List ℚ)) (labels : List ℚ)
    (nobs nsel nf : ℕ) (mi : ℚ) :
    ∀ (fuel b : ℕ) (p1_old : List NF) (cols : List (List ℚ)) (divs : List ℕ)
      (s : σ),
      ∃ k, k ≤ fuel ∧ (1 ≤ fuel → 1 ≤ k) ∧
        (earlyLoopAux randint method data labels nobs nsel nf mi fuel b p1_old
            cols divs s).cols.length = cols.length + k ∧
        (earlyLoopAux randint method data labels nobs nsel nf mi fuel b p1_old
            cols divs s).divisors = divs ++ List.range' b k ∧
        (∀ x, (earlyLoopAux randint method data labels nobs nsel nf mi fuel b
            p1_old cols divs s).run_time = some x → x + 1 = b + k) ∧
        ((∀ c ∈ cols, c.length = nf) →
          ∀ c ∈ (earlyLoopAux randint method data labels nobs nsel nf mi fuel b
            p1_old cols divs s).cols, c.length = nf) := by
  intro fuel
  induction fuel with
  | zero =>
    intro b p1_old cols divs s
    refine ⟨0, Nat.le_refl 0, by omega, by simp [earlyLoopAux], ?_, ?_, ?_⟩
    · simp [earlyLoopAux, List.range']
    · intro x hx; simp [earlyLoopAux] at hx
    · intro hc c hcmem
      simp only [earlyLoopAux] at hcmem
      exact hc c hcmem
  | succ fuel ih =>
    intro b p1_old cols divs s
    cases hblt : NF.blt (deltaMean (earlyP1 nf b
        (cols ++ [colOf nf (boot_iteration randint method data labels nobs nsel s).1]))
        p1_old) (NF.fin mi) with
    | true =>
      rw [earlyLoopAux_step_stop randint method data labels nobs nsel nf mi
        fuel b p1_old cols divs s hblt]
      refine ⟨1, by omega, by omega, by simp, ?_, ?_, ?_⟩
      · simp [List.range']
      · intro x hx
        simp only [Option.some.injEq] at hx
        omega
      · intro hc c hcmem
        rcases List.mem_append.mp hcmem with h1 | h1
        · exact hc c h1
        · simp only [List.mem_singleton] at h1
          subst h1
          exact colOf_length nf _
    | false =>
      rw [earlyLoopAux_step_go randint method data labels nobs nsel nf mi
        fuel b p1_old cols divs s hblt]
      obtain ⟨k, hk, _, hlen, hdiv, hrt, hshape⟩ := ih (b + 1)
        (earlyP1 nf b
          (cols ++ [colOf nf (boot_iteration randint method data labels nobs nsel s).1]))
        (cols ++ [colOf nf (boot_iteration randint method data labels nobs nsel s).1])
        (divs ++ [b])
        (boot_iteration randint method data labels nobs nsel s).2
      refine ⟨k + 1, by omega, by omega, ?_, ?_, ?_, ?_⟩
      · rw [hlen]; simp; omega
      · rw [hdiv]
        have hr : List.range' b (k + 1) = b :: List.range' (b + 1) k := rfl
        rw [hr, List.append_assoc]
        rfl
      · intro x hx
        have := hrt x hx
        omega
      · intro hc c hcmem
        refine hshape ?_ c hcmem
        intro c2 hc2
        rcases List.mem_append.mp hc2 with h1 | h1
        · exact hc c2 h1
        · simp only [List.mem_singleton] at h1
          subst h1
          exact colOf_length nf _

/-- The early-stopping loop never breaks at its first two trials: at loop
indices 0 and 1 the convergence statistic is nan or inf (the first trial
divides the per-feature counts by a trial count of zero), so a recorded
run_time is at least 2. -/
theorem earlyLoopAux_first_two {σ : Type} (randint : σ → ℕ → ℕ × σ)
    (method : Method) (data : List (List ℚ)) (labels : List ℚ)
    (nobs nsel nf : ℕ) (mi : ℚ) :
    ∀ (fuel : ℕ) (s : σ) (x : ℕ),
      (earlyLoopAux randint method data labels nobs nsel nf mi fuel 0
        (List.replicate nf (NF.fin 0)) [] [] s).run_time = some x → 2 ≤ x := by
  intro fuel s x h
  match fuel with
  | 0 => simp [earlyLoopAux] at h
  | Nat.succ fuel1 =>
    rw [earlyLoopAux_step_go randint method data labels nobs nsel nf mi fuel1 0
      (List.replicate nf (NF.fin 0)) [] [] s
      (NF.blt_fin_of_nanInf _ mi (deltaMean_b0 nf nf _))] at h
    match fuel1 with
    | 0 => simp [earlyLoopAux] at h
    | Nat.succ fuel2 =>
      rw [earlyLoopAux_step_go randint method data labels nobs nsel nf mi fuel2 1
        _ _ _ _ (NF.blt_fin_of_nanInf _ mi (deltaMean_b1 nf nf _ _))] at h
      match fuel2 with
      | 0 => simp [earlyLoopAux] at h
      | Nat.succ fuel3 =>
        obtain ⟨k, _, hk1, _, _, hrt, _⟩ := earlyLoopAux_master randint method
          data labels nobs nsel nf mi (Nat.succ fuel3) 2 _ _ _ _
        have h2 := hrt x h
        have h3 := hk1 (by omega)
        omega

/-- The sequential loop without early stopping runs exactly its fuel many
trials, each producing a column of length nf. -/
theorem seqLoop_spec {σ : Type} (randint : σ → ℕ → ℕ × σ) (method : Method)
    (data : List (List ℚ)) (labels : List ℚ) (nobs nsel nf : ℕ) :
    ∀ (n : ℕ) (s : σ),
      (seqLoop randint method data labels nobs nsel nf n s).1.length = n ∧
      ∀ c ∈ (seqLoop randint method data labels nobs nsel nf n s).1,
        c.length = nf := by
  intro n
  induction n with
  | zero => intro s; exact ⟨rfl, by simp [seqLoop]⟩
  | succ n ih =>
    intro s
    obtain ⟨h1, h2⟩ := ih (boot_iteration randint method data labels nobs nsel s).2
    constructor
    · simp only [seqLoop, List.length_cons]
      rw [h1]
    · intro c hc
      simp only [seqLoop] at hc
      rcases List.mem_cons.mp hc with h3 | h3
      · subst h3; exact colOf_length nf _
      · exact h2 c h3

/-- Shape of runTrials in the sequential mode without early stopping. -/
theorem runTrials_seq {σ : Type} (randint : σ → ℕ → ℕ × σ) (method : Method)
    (sched : ℕ → ℕ) (m : npfs) (data : List (List ℚ)) (labels : List ℚ)
    (s0 : σ) (hpar : m.parallel = none) (hmi : m.min_improv = 0) :
    runTrials randint method sched m data labels s0 =
      ((seqLoop randint method data labels data.length m.n_select
          (nFeaturesOf data) m.n_bootstraps s0).1, none, []) := by
  have hes : m.early_stopping = false := by simp [npfs.early_stopping, hmi]
  simp only [runTrials, hpar, hes]
  rw [if_pos trivial]

/-- Shape of runTrials in the sequential mode with early stopping. -/
theorem runTrials_early {σ : Type} (randint : σ → ℕ → ℕ × σ) (method : Method)
    (sched : ℕ → ℕ) (m : npfs) (data : List (List ℚ)) (labels : List ℚ)
    (s0 : σ) (hpar : m.parallel = none) (hmi : m.min_improv ≠ 0) :
    runTrials randint method sched m data labels s0 =
      ((earlyLoopAux randint method data labels data.length m.n_select
          (nFeaturesOf data) m.min_improv m.n_bootstraps 0
          (List.replicate (nFeaturesOf data) (NF.fin 0)) [] [] s0).cols,
        (earlyLoopAux randint method data labels data.length m.n_select
          (nFeaturesOf data) m.min_improv m.n_bootstraps 0
          (List.replicate (nFeaturesOf data) (NF.fin 0)) [] [] s0).run_time,
        (earlyLoopAux randint method data labels data.length m.n_select
          (nFeaturesOf data) m.min_improv m.n_bootstraps 0
          (List.replicate (nFeaturesOf data) (NF.fin 0)) [] [] s0).divisors) := by
  have hes : m.early_stopping = true := by simp [npfs.early_stopping, hmi]
  simp only [runTrials, hpar, hes]
  rw [if_neg (by decide : ¬ (true = false))]

/-- Shape of runTrials in the parallel mode. -/
theorem runTrials_par {σ : Type} (randint : σ → ℕ → ℕ × σ) (method : Method)
    (sched : ℕ → ℕ) (m : npfs) (data : List (List ℚ)) (labels : List ℚ)
    (s0 : σ) (w : ℕ) (hpar : m.parallel = some w) :
    runTrials randint method sched m data labels s0 =
      ((parSfs randint method data labels data.length m.n_select sched
          m.n_bootstraps s0).map (colOf (nFeaturesOf data)), none, []) := by
  simp only [runTrials, hpar]

/-- In every mode at most n_bootstraps trials run. -/
theorem runTrials_len_le {σ : Type} (randint : σ → ℕ → ℕ × σ) (method : Method)
    (sched : ℕ → ℕ) (m : npfs) (data : List (List ℚ)) (labels : List ℚ)
    (s0 : σ) :
    (runTrials randint method sched m data labels s0).1.length ≤
      m.n_bootstraps := by
  cases hpar : m.parallel with
  | none =>
    by_cases hmi : m.min_improv = 0
    · rw [runTrials_seq randint method sched m data labels s0 hpar hmi]
      exact le_of_eq (seqLoop_spec randint method data labels data.length
        m.n_select (nFeaturesOf data) m.n_bootstraps s0).1
    · rw [runTrials_early randint method sched m data labels s0 hpar hmi]
      obtain ⟨k, hk, _, hlen, _, _, _⟩ := earlyLoopAux_master randint method
        data labels data.length m.n_select (nFeaturesOf data) m.min_improv
        m.n_bootstraps 0 (List.replicate (nFeaturesOf data) (NF.fin 0)) [] [] s0
      simpa [hlen] using hk
  | some w =>
    rw [runTrials_par randint method sched m data labels s0 w hpar]
    simp [parSfs]

/-- In every mode at least one trial runs when n_bootstraps is positive. -/
theorem runTrials_len_ge1 {σ : Type} (randint : σ → ℕ → ℕ × σ)
    (method : Method) (sched : ℕ → ℕ) (m : npfs) (data : List (List ℚ))
    (labels : List ℚ) (s0 : σ) (hb : 1 ≤ m.n_bootstraps) :
    1 ≤ (runTrials randint method sched m data labels s0).1.length := by
  cases hpar : m.parallel with
  | none =>
    by_cases hmi : m.min_improv = 0
    · rw [runTrials_seq randint method sched m data labels s0 hpar hmi]
      rw [(seqLoop_spec randint method data labels data.length m.n_select
        (nFeaturesOf data) m.n_bootstraps s0).1]
      exact hb
    · rw [runTrials_early randint method sched m data labels s0 hpar hmi]
      obtain ⟨k, _, hk1, hlen, _, _, _⟩ := earlyLoopAux_master randint method
        data labels data.length m.n_select (nFeaturesOf data) m.min_improv
        m.n_bootstraps 0 (List.replicate (nFeaturesOf data) (NF.fin 0)) [] [] s0
      have := hk1 hb
      simp only [hlen]
      omega
  | some w =>
    rw [runTrials_par randint method sched m data labels s0 w hpar]
    simpa [parSfs] using hb

/-- The trials_executed and divisors fields of fitFinish. -/
theorem fitFinish_trials (m : npfs) (nf nobs : ℕ) (cols : List (List ℚ))
    (rt : Option ℕ) (divs : List ℕ) :
    (fitFinish m nf nobs cols rt divs).trials_executed = cols.length ∧
    (fitFinish m nf nobs cols rt divs).divisors = divs := by
  simp only [fitFinish]
  split <;> exact ⟨rfl, rfl⟩

/-- Field characterisation of a successful fitFinish. -/
theorem fitFinish_ok (m : npfs) (nf nobs : ℕ) (cols : List (List ℚ))
    (rt : Option ℕ) (divs : List ℕ) (out : FitOutcome)
    (h : (fitFinish m nf nobs cols rt divs).result = Except.ok out) :
    out.p = (m.n_select : ℚ) / (nf : ℚ) + m.beta ∧
    ¬ out.p > 1 ∧
    out.delta = binomPpf (1 - m.alpha) m.n_bootstraps out.p ∧
    out.n_features = nf ∧
    out.n_observations = nobs ∧
    out.run_time = rt ∧
    out.Bernoulli_matrix =
      cols ++ List.replicate (m.n_bootstraps - cols.length) (colOf nf []) ∧
    out.z = rowSums nf out.Bernoulli_matrix ∧
    out.selected_features = (List.range nf).filter
      (fun k => decide (out.z.getD k 0 > (out.delta : ℚ))) := by
  simp only [fitFinish] at h
  split at h
  · exact absurd h (by simp)
  · rename_i hnp
    have heq := Except.ok.inj h
    subst heq
    exact ⟨rfl, hnp, rfl, rfl, rfl, rfl, rfl, rfl, rfl⟩

/-- A successful fit factors through fitFinish over the cast data and the
configured execution mode; in particular the method name resolved and the
lengths matched. -/
theorem fit_split {σ : Type} (randint : σ → ℕ → ℕ × σ)
    (feastLib : String → Option Method) (sched : ℕ → ℕ) (m : npfs)
    (data0 : List (List ℚ)) (labels0 : List ℚ) (s0 : σ) (out : FitOutcome)
    (h : (fit randint feastLib sched m data0 labels0 s0).result = Except.ok out) :
    ∃ method, feastLib m.fs_method = some method ∧
      data0.length = labels0.length ∧
      fit randint feastLib sched m data0 labels0 s0 =
        fitFinish m (nFeaturesOf (castData data0)) (castData data0).length
          (runTrials randint method sched m (castData data0) (castLabels labels0) s0).1
          (runTrials randint method sched m (castData data0) (castLabels labels0) s0).2.1
          (runTrials randint method sched m (castData data0) (castLabels labels0) s0).2.2 := by
  by_cases hlen : data0.length = labels0.length
  · have hc : check_data data0 labels0 =
        Except.ok (castData data0, castLabels labels0) := by
      simp [check_data, hlen]
    cases hlib : feastLib m.fs_method with
    | none =>
      exfalso
      simp only [fit, hc, hlib] at h
      exact absurd h (by simp)
    | some method =>
      refine ⟨method, rfl, hlen, ?_⟩
      simp only [fit, hc, hlib]
  · exfalso
    have hc : check_data data0 labels0 =
        Except.error FitError.lengthMismatch := by
      simp [check_data, hlen]
    simp only [fit, hc] at h
    exact absurd h (by simp)

/- List helpers for the padded matrix. -/

/-- The getD values of a zero column are zero. -/
theorem getD_map_zero : ∀ (L : List ℕ) (i : ℕ),
    ((L.map (fun j => if j ∈ ([] : List ℕ) then (1 : ℚ) else 0)).getD i 0) = 0
  | [], _ => rfl
  | _ :: _, 0 => by simp
  | x :: L, Nat.succ i => by
    simp only [List.map_cons, List.getD_cons_succ]
    exact getD_map_zero L i

/-- Padding with never-written zero columns does not change the row sums. -/
theorem rowSums_pad (nf j : ℕ) (cols : List (List ℚ)) :
    rowSums nf (cols ++ List.replicate j (colOf nf [])) = rowSums nf cols := by
  unfold rowSums
  apply List.map_congr_left
  intro i _
  rw [List.map_append, List.sum_append, List.map_replicate]
  have hz : (colOf nf []).getD i 0 = 0 := getD_map_zero (List.range nf) i
  rw [hz]
  simp

/- Binomial facts used for the threshold. -/

/-- Bridge between the executable list sum and the Finset sum. -/
theorem listSum_range_map (f : ℕ → ℚ) :
    ∀ n, ((List.range n).map f).sum = ∑ i in Finset.range n, f i
  | 0 => by simp
  | Nat.succ n => by
    rw [List.range_succ, List.map_append, List.sum_append,
      Finset.sum_range_succ, listSum_range_map f n]
    simp

/-- The factorial form of the coefficient agrees with Nat.choose below the
diagonal. -/
theorem binomCoeff_eq_choose (n k : ℕ) (h : k ≤ n) :
    binomCoeff n k = n.choose k :=
  (Nat.choose_eq_factorial_div_factorial h).symm

/-- The binomial CDF at n is exactly 1 (binomial theorem). -/
theorem binomCdf_self (n : ℕ) (p : ℚ) : binomCdf n p n = 1 := by
  unfold binomCdf
  rw [listSum_range_map]
  have hcongr : ∀ j ∈ Finset.range (n + 1),
      binomPmf n p j = p ^ j * (1 - p) ^ (n - j) * ((n.choose j : ℕ) : ℚ) := by
    intro j hj
    have hj' : j ≤ n := Nat.lt_succ_iff.mp (Finset.mem_range.mp hj)
    unfold binomPmf
    rw [binomCoeff_eq_choose n j hj']
    ring
  rw [Finset.sum_congr rfl hcongr, ← add_pow]
  have h1 : p + (1 - p) = 1 := by ring
  rw [h1, one_pow]

/-- The binomial pmf at n is p ^ n. -/
theorem binomPmf_self (n : ℕ) (p : ℚ) : binomPmf n p n = p ^ n := by
  unfold binomPmf binomCoeff
  rw [Nat.sub_self]
  have h1 : n.factorial / (n.factorial * Nat.factorial 0) = 1 := by
    rw [Nat.factorial_zero, Nat.mul_one]
    exact Nat.div_self n.factorial_pos
  rw [h1]
  simp

/-- The binomial CDF one below n is 1 - p ^ n. -/
theorem binomCdf_pred (n : ℕ) (p : ℚ) (hn : 1 ≤ n) :
    binomCdf n p (n - 1) = 1 - p ^ n := by
  have h1 : n - 1 + 1 = n := by omega
  have h2 := binomCdf_self n p
  unfold binomCdf at h2 ⊢
  rw [h1, listSum_range_map]
  rw [listSum_range_map, Finset.sum_range_succ, binomPmf_self] at h2
  linarith

/-- A find? over a list extended on the right returns an element of the
prefix whenever some element of the prefix satisfies the predicate. -/
theorem find?_prefix {α : Type} (p : α → Bool) :
    ∀ (l₁ l₂ : List α), (∃ x ∈ l₁, p x = true) →
      ∃ r ∈ l₁, (l₁ ++ l₂).find? p = some r
  | [], _, h => absurd h (by simp)
  | a :: t, l₂, h => by
    cases hpa : p a with
    | true =>
      exact ⟨a, by simp, by rw [List.cons_append, List.find?_cons_of_pos _ hpa]⟩
    | false =>
      obtain ⟨x, hx, hpx⟩ := h
      rcases List.mem_cons.mp hx with h1 | h1
      · subst h1; rw [hpa] at hpx; exact absurd hpx (by simp)
      · obtain ⟨r, hr, hfind⟩ := find?_prefix p t l₂ ⟨x, h1, hpx⟩
        exact ⟨r, List.mem_cons_of_mem a hr,
          by rw [List.cons_append, List.find?_cons_of_neg _ (by simp [hpa]), hfind]⟩

/-- When the CDF already reaches q one step below n, the quantile is
strictly below n. -/
theorem binomPpf_lt_of (q p' : ℚ) (n : ℕ) (hn : 1 ≤ n)
    (hq : q ≤ binomCdf n p' (n - 1)) : binomPpf q n p' < n := by
  unfold binomPpf
  rw [List.range_succ]
  obtain ⟨r, hr, hfind⟩ := find?_prefix
    (fun k => decide (q ≤ binomCdf n p' k)) (List.range n) [n]
    ⟨n - 1, List.mem_range.mpr (by omega), by simpa using hq⟩
  rw [hfind]
  simpa using List.mem_range.mp hr

/- Heap lemmas for the frame property. -/

/-- getD through a right extension, below the original length. -/
theorem getD_append_lt {α : Type} :
    ∀ (l t : List α) (j : ℕ) (d : α), j < l.length →
      (l ++ t).getD j d = l.getD j d
  | [], _, _, _, hj => absurd hj (by simp)
  | _ :: _, _, 0, _, _ => rfl
  | _ :: l, t, Nat.succ j, d, hj => by
    simp only [List.cons_append, List.getD_cons_succ]
    exact getD_append_lt l t j d (by simpa using hj)

/-- getD is unchanged by a set at a different index. -/
theorem getD_set_ne {α : Type} :
    ∀ (l : List α) (i j : ℕ) (v d : α), j ≠ i →
      (l.set i v).getD j d = l.getD j d
  | [], _, _, _, _, _ => rfl
  | _ :: _, 0, 0, _, _, hne => absurd rfl hne
  | _ :: _, 0, Nat.succ _, _, _, _ => rfl
  | _ :: _, Nat.succ _, 0, _, _, _ => rfl
  | _ :: l, Nat.succ i, Nat.succ j, v, d, hne => by
    simp only [List.set_cons_succ, List.getD_cons_succ]
    exact getD_set_ne l i j v d (fun h => hne (by rw [h]))

/-- getD at the length of the left part reads the first appended cell. -/
theorem getD_append_len {α : Type} :
    ∀ (l : List α) (x : α) (t : List α) (d : α),
      (l ++ x :: t).getD l.length d = x
  | [], _, _, _ => rfl
  | _ :: l, x, t, d => getD_append_len l x t d

/-- hBoot only allocates: cells below the original length are unchanged and
the heap does not shrink. -/
theorem hBoot_frame {σ : Type} (randint : σ → ℕ → ℕ × σ) (method : Method)
    (dId lId nobs nsel : ℕ) (h : Heap) (s : σ) :
    (∀ j (d : PyVal), j < h.length →
      ((hBoot randint method dId lId nobs nsel h s).1).getD j d = h.getD j d) ∧
    h.length ≤ ((hBoot randint method dId lId nobs nsel h s).1).length := by
  constructor
  · intro j d hj
    simp only [hBoot, hAlloc]
    rw [getD_append_lt _ _ j d (by simp; omega), getD_append_lt _ _ j d hj]
  · simp [hBoot, hAlloc]

/-- The sequential heap loop writes only the cell of Z. -/
theorem hSeqLoop_frame {σ : Type} (randint : σ → ℕ → ℕ × σ) (method : Method)
    (dId lId zId nobs nsel : ℕ) :
    ∀ (fuel b : ℕ) (h : Heap) (s : σ) (j : ℕ) (d : PyVal), j < h.length →
      j ≠ zId →
      ((hSeqLoop randint method dId lId zId nobs nsel fuel b h s).1).getD j d
        = h.getD j d := by
  intro fuel
  induction fuel with
  | zero => intro b h s j d _ _; rfl
  | succ fuel ih =>
    intro b h s j d hj hz
    obtain ⟨hb1, hb2⟩ := hBoot_frame randint method dId lId nobs nsel h s
    simp only [hSeqLoop]
    rw [ih (b + 1) _ _ j d ?_ hz]
    · rw [hSet, getD_set_ne _ zId j _ d hz]
      exact hb1 j d hj
    · rw [hSet, List.length_set]
      omega

/-- The early-stopping heap loop writes only the cell of Z. -/
theorem hEarlyLoop_frame {σ : Type} (randint : σ → ℕ → ℕ × σ) (method : Method)
    (dId lId zId nobs nsel : ℕ) (mi : ℚ) :
    ∀ (fuel b : ℕ) (p1_old : List NF) (h : Heap) (s : σ) (j : ℕ) (d : PyVal),
      j < h.length → j ≠ zId →
      ((hEarlyLoop randint method dId lId zId nobs nsel mi fuel b p1_old h s).1).getD j d
        = h.getD j d := by
  intro fuel
  induction fuel with
  | zero => intro b p1_old h s j d _ _; rfl
  | succ fuel ih =>
    intro b p1_old h s j d hj hz
    obtain ⟨hb1, hb2⟩ := hBoot_frame randint method dId lId nobs nsel h s
    simp only [hEarlyLoop]
    split
    · rw [hSet, getD_set_ne _ zId j _ d hz]
      exact hb1 j d hj
    · rw [ih (b + 1) _ _ _ j d ?_ hz]
      · rw [hSet, getD_set_ne _ zId j _ d hz]
        exact hb1 j d hj
      · rw [hSet, List.length_set]
        omega

/-- The parallel assembly writes only the cell of Z. -/
theorem hParWrite_frame (zId : ℕ) :
    ∀ (sfs : List (List ℕ)) (x : ℕ) (h : Heap) (j : ℕ) (d : PyVal), j ≠ zId →
      (hParWrite zId sfs x h).getD j d = h.getD j d
  | [], _, _, _, _, _ => rfl
  | sf :: rest, x, h, j, d, hz => by
    simp only [hParWrite]
    rw [hParWrite_frame zId rest (x + 1) _ j d hz, hSet,
      getD_set_ne _ zId j _ d hz]

/-- The heap-level trial phase writes only the cell of Z. -/
theorem hRunTrials_frame {σ : Type} (randint : σ → ℕ → ℕ × σ)
    (method : Method) (sched : ℕ → ℕ) (m : npfs) (dId lId zId nobs nf : ℕ)
    (h : Heap) (s0 : σ) (j : ℕ) (d : PyVal) (hj : j < h.length)
    (hz : j ≠ zId) :
    (hRunTrials randint method sched m dId lId zId nobs nf h s0).getD j d
      = h.getD j d := by
  cases hpar : m.parallel with
  | none =>
    simp only [hRunTrials, hpar]
    split
    · exact hSeqLoop_frame randint method dId lId zId nobs m.n_select
        m.n_bootstraps 0 h s0 j d hj hz
    · exact hEarlyLoop_frame randint method dId lId zId nobs m.n_select
        m.min_improv m.n_bootstraps 0 (List.replicate nf (NF.fin 0)) h s0
        j d hj hz
  | some w =>
    simp only [hRunTrials, hpar]
    exact hParWrite_frame zId _ 0 h j d hz

/-- First component of a branch-independent pair under ite. -/
theorem prod_fst_ite {c : Prop} [Decidable c] {α β : Type} (x : α)
    (a b : β) : (if c then (x, a) else (x, b)).1 = x := by
  split <;> rfl

/-- The float cast does not change the number of features. -/
theorem nFeaturesOf_cast (data : List (List ℚ)) :
    nFeaturesOf (castData data) = nFeaturesOf data := by
  cases data <;> simp [nFeaturesOf, castData]

/-- Every column produced by the trial phase has length nFeaturesOf data. -/
theorem runTrials_shapes {σ : Type} (randint : σ → ℕ → ℕ × σ)
    (method : Method) (sched : ℕ → ℕ) (m : npfs) (data : List (List ℚ))
    (labels : List ℚ) (s0 : σ) :
    ∀ c ∈ (runTrials randint method sched m data labels s0).1,
      c.length = nFeaturesOf data := by
  cases hpar : m.parallel with
  | none =>
    by_cases hmi : m.min_improv = 0
    · rw [runTrials_seq randint method sched m data labels s0 hpar hmi]
      exact (seqLoop_spec randint method data labels data.length m.n_select
        (nFeaturesOf data) m.n_bootstraps s0).2
    · rw [runTrials_early randint method sched m data labels s0 hpar hmi]
      obtain ⟨k, _, _, _, _, _, hshape⟩ := earlyLoopAux_master randint method
        data labels data.length m.n_select (nFeaturesOf data) m.min_improv
        m.n_bootstraps 0 (List.replicate (nFeaturesOf data) (NF.fin 0)) [] [] s0
      exact hshape (fun c hc => absurd hc (by simp))
  | some w =>
    rw [runTrials_par randint method sched m data labels s0 w hpar]
    intro c hc
    obtain ⟨sf, _, rfl⟩ := List.mem_map.mp hc
    exact colOf_length _ _

/- Claim theorems. -/

/-- C1, claim as stated is false (counterexample): on an early-stopped run
with 3 populated columns out of n_bootstraps = 10, the code computes
delta = 9, the Binomial(10, 1/2) quantile, whereas the quantile of
Binomial(m, p) = Binomial(3, 1/2) demanded by the claim is 3. -/
theorem claim1_counterexample :
    fitC1.trials_executed = 3 ∧
    fitC1.result.toOption.map FitOutcome.run_time = some (some 2) ∧
    fitC1.result.toOption.map FitOutcome.delta = some 9 ∧
    binomPpf (1 - 1 / 100) 3 ((1 : ℚ) / 2) = 3 ∧
    (9 : ℕ) ≠ 3 := by
  refine ⟨by decide, by decide, by decide, by decide, by decide⟩

/-- C1 (amended): in an early-stopped sequential fit the per-feature count
vector z does equal the row sums over the populated columns alone, because
the trailing never-written columns of Z are all zero; but the critical
value delta is the quantile of Binomial(n_bootstraps, p), not of
Binomial(m, p): the code passes self.n_bootstraps to binom.ppf regardless
of the early stop. -/
theorem claim1_amended {σ : Type} (randint : σ → ℕ → ℕ × σ)
    (feastLib : String → Option Method) (sched : ℕ → ℕ) (m : npfs)
    (data0 : List (List ℚ)) (labels0 : List ℚ) (s0 : σ) (out : FitOutcome)
    (_hpar : m.parallel = none) (_hmi : m.min_improv ≠ 0)
    (h : (fit randint feastLib sched m data0 labels0 s0).result = Except.ok out) :
    out.z = rowSums out.n_features
      (out.Bernoulli_matrix.take
        ((fit randint feastLib sched m data0 labels0 s0).trials_executed)) ∧
    out.delta = binomPpf (1 - m.alpha) m.n_bootstraps out.p := by
  obtain ⟨method, hlib, hlen, hfit⟩ :=
    fit_split randint feastLib sched m data0 labels0 s0 out h
  rw [hfit] at h
  obtain ⟨hp, hnp, hdelta, hnf, _, _, hZ, hz, _⟩ :=
    fitFinish_ok _ _ _ _ _ _ _ h
  refine ⟨?_, hdelta⟩
  rw [hfit, (fitFinish_trials _ _ _ _ _ _).1, hz, hZ, hnf]
  have ht : ((runTrials randint method sched m (castData data0)
        (castLabels labels0) s0).1 ++
      List.replicate (m.n_bootstraps -
        (runTrials randint method sched m (castData data0)
          (castLabels labels0) s0).1.length)
        (colOf (nFeaturesOf (castData data0)) [])).take
      (runTrials randint method sched m (castData data0)
        (castLabels labels0) s0).1.length =
      (runTrials randint method sched m (castData data0)
        (castLabels labels0) s0).1 := List.take_left _ _
  rw [ht, rowSums_pad]

/-- C2, claim as stated is false (counterexample): the early-stopping loop
does divide by a trial count of zero: on this run the recorded divisors of
p1 = Z.sum(axis=1)/b are 0, 1, 2, 3, and 0 is among them. -/
theorem claim2_counterexample :
    fitC2.divisors = [0, 1, 2, 3] ∧ 0 ∈ fitC2.divisors := by
  refine ⟨by decide, by decide⟩

/-- C2 (amended): in early-stopping mode the frequency computation divides
by the loop index, so the first executed trial divides by zero (the
divisor list is 0, 1, ..., trials-1); under the modelled IEEE semantics the
resulting d is nan or inf at loop indices 0 and 1, neither of which
compares below min_improv, so the loop never stops before its third trial:
a recorded run_time is at least 2. -/
theorem claim2_amended {σ : Type} (randint : σ → ℕ → ℕ × σ)
    (feastLib : String → Option Method) (sched : ℕ → ℕ) (m : npfs)
    (data0 : List (List ℚ)) (labels0 : List ℚ) (s0 : σ) (out : FitOutcome)
    (hpar : m.parallel = none) (hmi : m.min_improv ≠ 0)
    (h : (fit randint feastLib sched m data0 labels0 s0).result = Except.ok out) :
    (fit randint feastLib sched m data0 labels0 s0).divisors =
      List.range ((fit randint feastLib sched m data0 labels0 s0).trials_executed) ∧
    (∀ b, out.run_time = some b → 2 ≤ b) := by
  obtain ⟨method, hlib, hlen, hfit⟩ :=
    fit_split randint feastLib sched m data0 labels0 s0 out h
  rw [hfit] at h
  obtain ⟨_, _, _, _, _, hrt, _, _, _⟩ := fitFinish_ok _ _ _ _ _ _ _ h
  have htr := fitFinish_trials m (nFeaturesOf (castData data0))
    (castData data0).length
    (runTrials randint method sched m (castData data0) (castLabels labels0) s0).1
    (runTrials randint method sched m (castData data0) (castLabels labels0) s0).2.1
    (runTrials randint method sched m (castData data0) (castLabels labels0) s0).2.2
  rw [hfit, htr.1, htr.2]
  rw [runTrials_early randint method sched m (castData data0)
    (castLabels labels0) s0 hpar hmi] at hrt ⊢
  obtain ⟨k, _, _, hlen', hdiv, _, _⟩ := earlyLoopAux_master randint method
    (castData data0) (castLabels labels0) (castData data0).length m.n_select
    (nFeaturesOf (castData data0)) m.min_improv m.n_bootstraps 0
    (List.replicate (nFeaturesOf (castData data0)) (NF.fin 0)) [] [] s0
  constructor
  · simp only [hdiv, hlen', List.nil_append, List.length_nil, Nat.zero_add]
    exact (List.range_eq_range' k).symm
  · intro b hb
    rw [hrt] at hb
    exact earlyLoopAux_first_two randint method (castData data0)
      (castLabels labels0) (castData data0).length m.n_select
      (nFeaturesOf (castData data0)) m.min_improv m.n_bootstraps s0 b hb

/-- C3, claim as stated is false (counterexample): with n_select = 3 and 2
features, p = 3/2 > 1, fit does raise the invalid-probability error — but
only after running all n_bootstraps = 2 bootstrap trials, so trials do
execute before the check (the claim demands zero trials). -/
theorem claim3_counterexample :
    fitC3.result = Except.error FitError.invalidProbability ∧
    fitC3.trials_executed = 2 ∧ (2 : ℕ) ≠ 0 := by
  refine ⟨by decide, by decide, by decide⟩

/-- C3 (amended): whenever p = n_select/n_features + beta > 1, fit fails
with the invalid-probability error, but the check sits after the bootstrap
phase: all configured trials run first — at least one bootstrap trial (and
hence a Selection Oracle call) executes whenever n_bootstraps ≥ 1. -/
theorem claim3_amended {σ : Type} (randint : σ → ℕ → ℕ × σ)
    (feastLib : String → Option Method) (sched : ℕ → ℕ) (m : npfs)
    (data0 : List (List ℚ)) (labels0 : List ℚ) (s0 : σ) (method : Method)
    (hlen : data0.length = labels0.length)
    (hlib : feastLib m.fs_method = some method)
    (hp : (m.n_select : ℚ) / ((nFeaturesOf data0 : ℕ) : ℚ) + m.beta > 1)
    (hb : 1 ≤ m.n_bootstraps) :
    (fit randint feastLib sched m data0 labels0 s0).result =
      Except.error FitError.invalidProbability ∧
    1 ≤ (fit randint feastLib sched m data0 labels0 s0).trials_executed := by
  have hc : check_data data0 labels0 =
      Except.ok (castData data0, castLabels labels0) := by
    simp [check_data, hlen]
  have hfit : fit randint feastLib sched m data0 labels0 s0 =
      fitFinish m (nFeaturesOf (castData data0)) (castData data0).length
        (runTrials randint method sched m (castData data0) (castLabels labels0) s0).1
        (runTrials randint method sched m (castData data0) (castLabels labels0) s0).2.1
        (runTrials randint method sched m (castData data0) (castLabels labels0) s0).2.2 := by
    simp only [fit, hc, hlib]
  have hp' : (m.n_select : ℚ) / ((nFeaturesOf (castData data0) : ℕ) : ℚ) + m.beta > 1 := by
    rwa [nFeaturesOf_cast]
  rw [hfit]
  constructor
  · simp only [fitFinish]
    rw [if_pos hp']
  · rw [(fitFinish_trials _ _ _ _ _ _).1]
    exact runTrials_len_ge1 randint method sched m (castData data0)
      (castLabels labels0) s0 hb

/-- C5, claim as stated is false (counterexample): on this early-stopped
run the break fires at loop index 2, after three executed trials; the
reported run_time is 2, not the executed trial count 3. -/
theorem claim5_counterexample :
    fitC5.result.toOption.map FitOutcome.run_time = some (some 2) ∧
    fitC5.trials_executed = 3 ∧ (2 : ℕ) ≠ 3 := by
  refine ⟨by decide, by decide, by decide⟩

/-- C5 (amended): when the Convergence Monitor fires at loop index b, the
loop stops after exactly b + 1 executed trials (so the recorded run_time of
b undercounts the executed trials by one), the executed count never
exceeds n_bootstraps, and b is at least 2. -/
theorem claim5_amended {σ : Type} (randint : σ → ℕ → ℕ × σ)
    (feastLib : String → Option Method) (sched : ℕ → ℕ) (m : npfs)
    (data0 : List (List ℚ)) (labels0 : List ℚ) (s0 : σ) (out : FitOutcome)
    (b : ℕ) (hpar : m.parallel = none) (hmi : m.min_improv ≠ 0)
    (h : (fit randint feastLib sched m data0 labels0 s0).result = Except.ok out)
    (hb : out.run_time = some b) :
    b + 1 = (fit randint feastLib sched m data0 labels0 s0).trials_executed ∧
    (fit randint feastLib sched m data0 labels0 s0).trials_executed ≤
      m.n_bootstraps ∧
    2 ≤ b := by
  obtain ⟨method, hlib, hlen, hfit⟩ :=
    fit_split randint feastLib sched m data0 labels0 s0 out h
  rw [hfit] at h
  obtain ⟨_, _, _, _, _, hrt, _, _, _⟩ := fitFinish_ok _ _ _ _ _ _ _ h
  rw [hfit, (fitFinish_trials _ _ _ _ _ _).1]
  rw [runTrials_early randint method sched m (castData data0)
    (castLabels labels0) s0 hpar hmi] at hrt ⊢
  rw [hrt] at hb
  obtain ⟨k, hk, _, hlen', _, hrt', _⟩ := earlyLoopAux_master randint method
    (castData data0) (castLabels labels0) (castData data0).length m.n_select
    (nFeaturesOf (castData data0)) m.min_improv m.n_bootstraps 0
    (List.replicate (nFeaturesOf (castData data0)) (NF.fin 0)) [] [] s0
  have h1 := hrt' b hb
  have h2 := earlyLoopAux_first_two randint method (castData data0)
    (castLabels labels0) (castData data0).length m.n_select
    (nFeaturesOf (castData data0)) m.min_improv m.n_bootstraps s0 b hb
  simp only [hlen', List.length_nil, Nat.zero_add]
  omega

/-- C6: an fs_method name that does not resolve in the FEAST library makes
fit fail with the method-not-found error at fit time, with zero bootstrap
trials executed (for well-formed data, which is validated just before the
lookup). -/
theorem claim6_thm {σ : Type} (randint : σ → ℕ → ℕ × σ)
    (feastLib : String → Option Method) (sched : ℕ → ℕ) (m : npfs)
    (data0 : List (List ℚ)) (labels0 : List ℚ) (s0 : σ)
    (hlen : data0.length = labels0.length)
    (hlib : feastLib m.fs_method = none) :
    fit randint feastLib sched m data0 labels0 s0 =
      ⟨Except.error FitError.methodNotFound, 0, []⟩ := by
  have hc : check_data data0 labels0 =
      Except.ok (castData data0, castLabels labels0) := by
    simp [check_data, hlen]
  simp only [fit, hc, hlib]

set_option maxRecDepth 100000 in
set_option maxHeartbeats 2000000 in
/-- Helper numeric fact: the exact 0.99 quantile of Binomial(100, 3/10)
is 41. -/
theorem ppf_c7_value : binomPpf (1 - 1 / 100) 100 (3 / 10) = 41 := by decide

/-- C7: with n_select = 3, n_bootstraps = 100, alpha = 0.01, beta = 0 and
10 features, every successful fit computes the null probability p = 3/10
and the threshold delta = 41, the 0.99 quantile of Binomial(100, 0.3). -/
theorem claim7_thm {σ : Type} (randint : σ → ℕ → ℕ × σ)
    (feastLib : String → Option Method) (sched : ℕ → ℕ) (fsm : String)
    (par : Option ℕ) (mi : ℚ) (data0 : List (List ℚ)) (labels0 : List ℚ)
    (s0 : σ) (out : FitOutcome)
    (h : (fit randint feastLib sched ⟨fsm, 3, 100, 1 / 100, 0, par, mi⟩
      data0 labels0 s0).result = Except.ok out)
    (hnf : out.n_features = 10) :
    out.p = 3 / 10 ∧ out.delta = 41 := by
  obtain ⟨method, hlib, hlen, hfit⟩ :=
    fit_split randint feastLib sched _ data0 labels0 s0 out h
  rw [hfit] at h
  obtain ⟨hp, _, hdelta, hnf', _, _, _, _, _⟩ := fitFinish_ok _ _ _ _ _ _ _ h
  rw [hnf] at hnf'
  have hp' : out.p = 3 / 10 := by
    rw [hp, ← hnf']
    show ((3 : ℕ) : ℚ) / ((10 : ℕ) : ℚ) + 0 = 3 / 10
    norm_num
  refine ⟨hp', ?_⟩
  rw [hdelta, hp']
  exact ppf_c7_value

/-- C8, claim as stated is false (counterexample): with p = 1/2,
n_bootstraps = 5 and alpha = 0.01 < 1, the 0.99 quantile of
Binomial(5, 1/2) is 5 = n_bootstraps, so feature 0 — selected in every
single trial, z_0 = 5 — is still excluded from the output. -/
theorem claim8_counterexample :
    fitC8x.result.toOption.map FitOutcome.z = some [5, 0] ∧
    fitC8x.result.toOption.map FitOutcome.delta = some 5 ∧
    fitC8x.result.toOption.map FitOutcome.selected_features = some [] ∧
    cfgC8x.alpha < 1 ∧ cfgC8x.n_bootstraps = 5 := by
  refine ⟨by decide, by decide, by decide, by decide, by decide⟩

/-- C8 (amended): a feature selected in every trial (z_i = n_bootstraps) is
included in the output provided additionally p^n_bootstraps ≤ alpha, which
makes the binomial quantile strictly smaller than n_bootstraps; without
that condition (for example p = 1, or p near 1 with few bootstraps) the
threshold saturates at n_bootstraps and the feature is excluded. -/
theorem claim8_amended {σ : Type} (randint : σ → ℕ → ℕ × σ)
    (feastLib : String → Option Method) (sched : ℕ → ℕ) (m : npfs)
    (data0 : List (List ℚ)) (labels0 : List ℚ) (s0 : σ) (out : FitOutcome)
    (i : ℕ)
    (h : (fit randint feastLib sched m data0 labels0 s0).result = Except.ok out)
    (hi : i < out.n_features)
    (hz : out.z.getD i 0 = (m.n_bootstraps : ℚ))
    (hα : m.alpha < 1)
    (hpn : out.p ^ m.n_bootstraps ≤ m.alpha) :
    i ∈ out.selected_features := by
  obtain ⟨method, hlib, hlen, hfit⟩ :=
    fit_split randint feastLib sched m data0 labels0 s0 out h
  rw [hfit] at h
  obtain ⟨_, _, hdelta, hnf, _, _, _, _, hsel⟩ := fitFinish_ok _ _ _ _ _ _ _ h
  have hn1 : 1 ≤ m.n_bootstraps := by
    by_contra hcon
    have h0 : m.n_bootstraps = 0 := by omega
    rw [h0, pow_zero] at hpn
    linarith
  have hql : 1 - m.alpha ≤ binomCdf m.n_bootstraps out.p (m.n_bootstraps - 1) := by
    rw [binomCdf_pred m.n_bootstraps out.p hn1]
    linarith
  have hlt : out.delta < m.n_bootstraps := by
    rw [hdelta]
    exact binomPpf_lt_of _ _ _ hn1 hql
  rw [hsel, List.mem_filter]
  refine ⟨List.mem_range.mpr (by rw [← hnf]; exact hi), ?_⟩
  rw [hz]
  apply decide_eq_true
  exact_mod_cast hlt

/-- C9, claim as stated is false (counterexample): this sequential fit
without early stopping succeeds, but no effective trial count is retained:
the run_time attribute is only assigned inside the early-stopping break, so
it is absent here. -/
theorem claim9_counterexample :
    fitC9.result.toOption.map FitOutcome.run_time = some none ∧
    cfgC9.n_bootstraps = 4 ∧ fitC9.trials_executed = 4 := by
  refine ⟨by decide, by decide, by decide⟩

/-- C9 (amended): every successful fit retains the full Bernoulli matrix
(n_bootstraps columns, each of length n_features), but the effective trial
count is observable only through the run_time attribute, which is set
exclusively by the early-stopping break: in the parallel mode and in the
sequential mode without early stopping no trial-count attribute is set. -/
theorem claim9_amended {σ : Type} (randint : σ → ℕ → ℕ × σ)
    (feastLib : String → Option Method) (sched : ℕ → ℕ) (m : npfs)
    (data0 : List (List ℚ)) (labels0 : List ℚ) (s0 : σ) (out : FitOutcome)
    (h : (fit randint feastLib sched m data0 labels0 s0).result = Except.ok out) :
    out.Bernoulli_matrix.length = m.n_bootstraps ∧
    (∀ c ∈ out.Bernoulli_matrix, c.length = out.n_features) ∧
    ((m.parallel ≠ none ∨ m.min_improv = 0) → out.run_time = none) := by
  obtain ⟨method, hlib, hlen, hfit⟩ :=
    fit_split randint feastLib sched m data0 labels0 s0 out h
  rw [hfit] at h
  obtain ⟨_, _, _, hnf, _, hrt, hZ, _, _⟩ := fitFinish_ok _ _ _ _ _ _ _ h
  have hle := runTrials_len_le randint method sched m (castData data0)
    (castLabels labels0) s0
  refine ⟨?_, ?_, ?_⟩
  · rw [hZ]
    simp only [List.length_append, List.length_replicate]
    omega
  · intro c hc
    rw [hZ] at hc
    rw [hnf]
    rcases List.mem_append.mp hc with h1 | h1
    · exact runTrials_shapes randint method sched m (castData data0)
        (castLabels labels0) s0 c h1
    · rw [List.eq_of_mem_replicate h1]
      exact colOf_length _ _
  · intro hmode
    rw [hrt]
    rcases hmode with hmode | hmode
    · cases hpar : m.parallel with
      | none => exact absurd hpar hmode
      | some w =>
        rw [runTrials_par randint method sched m (castData data0)
          (castLabels labels0) s0 w hpar]
    · cases hpar : m.parallel with
      | none =>
        rw [runTrials_seq randint method sched m (castData data0)
          (castLabels labels0) s0 hpar hmode]
      | some w =>
        rw [runTrials_par randint method sched m (castData data0)
          (castLabels labels0) s0 w hpar]

/-- C4: the code diverges from the claim (and from the documented intent of
independent bootstrap trials).  With the global RNG in the same initial
state, the sequential fit selects feature 1 in trial 0 and feature 0 in
trial 1, giving the Bernoulli columns [0, 1] and [1, 0]; the two-worker
parallel fit of the same configuration gives the columns [0, 1] and [0, 1]:
both forked workers inherit the parent RNG state at pool creation, so both
parallel tasks draw the bootstrap sample of the first sequential trial,
duplicating columns instead of drawing independent samples. -/
theorem claim4_code_divergence :
    fitC4s.result.toOption.map FitOutcome.Bernoulli_matrix =
      some [[0, 1], [1, 0]] ∧
    fitC4p.result.toOption.map FitOutcome.Bernoulli_matrix =
      some [[0, 1], [0, 1]] ∧
    ([[(0 : ℚ), 1], [1, 0]] : List (List ℚ)) ≠ [[0, 1], [0, 1]] := by
  refine ⟨by decide, by decide, by decide⟩

/-- C10: fit never writes into the caller arrays: after a successful
heap-level fit every cell of the original heap is unchanged (in particular
the data and labels cells the caller passed in), and the cells freshly
allocated by __check_data hold the float-cast copies 1.0*data and
1.0*labels of the caller values; the trial loops write only the cell of Z. -/
theorem claim10_thm {σ : Type} (randint : σ → ℕ → ℕ × σ)
    (feastLib : String → Option Method) (sched : ℕ → ℕ) (m : npfs)
    (dataId labelsId : ℕ) (h : Heap) (s0 : σ) (sel : List ℕ)
    (_hd : dataId < h.length) (_hl : labelsId < h.length)
    (hok : (heapFit randint feastLib sched m dataId labelsId h s0).2 =
      Except.ok sel) :
    (∀ (j : ℕ) (d : PyVal), j < h.length →
      ((heapFit randint feastLib sched m dataId labelsId h s0).1).getD j d
        = h.getD j d) ∧
    hGet2 ((heapFit randint feastLib sched m dataId labelsId h s0).1) h.length
      = castData (hGet2 h dataId) ∧
    hGet1 ((heapFit randint feastLib sched m dataId labelsId h s0).1)
      (h.length + 1) = castLabels (hGet1 h labelsId) := by
  by_cases hlen : (hGet2 h dataId).length ≠ (hGet1 h labelsId).length
  · exfalso
    simp only [heapFit] at hok
    rw [if_pos hlen] at hok
    simp at hok
  · cases hlib : feastLib m.fs_method with
    | none =>
      exfalso
      simp only [heapFit, hAlloc] at hok
      rw [if_neg hlen] at hok
      simp only [hlib] at hok
      simp at hok
    | some method =>
      have hkey : ∀ (j : ℕ) (d : PyVal), j < h.length + 2 →
          ((heapFit randint feastLib sched m dataId labelsId h s0).1).getD j d
            = ((h ++ [PyVal.arr2 (castData (hGet2 h dataId))]) ++
                [PyVal.arr1 (castLabels (hGet1 h labelsId))]).getD j d := by
        intro j d hj
        simp only [heapFit, hAlloc]
        rw [if_neg hlen]
        simp only [hlib]
        rw [prod_fst_ite, hRunTrials_frame, getD_append_lt _ _ j d
          (by simp only [List.length_append, List.length_cons,
            List.length_nil]; omega)]
        · simp only [List.length_append, List.length_cons, List.length_nil]
          omega
        · simp only [List.length_append, List.length_cons, List.length_nil]
          omega
      refine ⟨?_, ?_, ?_⟩
      · intro j d hj
        rw [hkey j d (by omega),
          getD_append_lt _ _ j d (by simp only [List.length_append,
            List.length_cons, List.length_nil]; omega),
          getD_append_lt _ _ j d hj]
      · simp only [hGet2]
        rw [hkey h.length (PyVal.arr1 []) (by omega),
          getD_append_lt _ _ h.length (PyVal.arr1 [])
            (by simp only [List.length_append, List.length_cons,
              List.length_nil]; omega),
          getD_append_len]
        rfl
      · simp only [hGet1]
        have e1 : h.length + 1 =
            (h ++ [PyVal.arr2 (castData (hGet2 h dataId))]).length := by
          simp
        rw [hkey (h.length + 1) (PyVal.arr1 []) (by omega), e1,
          getD_append_len]
        rfl

/- Witnesses instantiating the general theorems on the concrete fixtures. -/

/-- Witness for the amended C1 on the early-stopped fixture. -/
theorem claim1_witness :
    (cfgEarly 10 (1 / 2)).parallel = none ∧
    (cfgEarly 10 (1 / 2)).min_improv ≠ 0 ∧
    fitC1.result = Except.ok (okOutcome fitC1) ∧
    (okOutcome fitC1).z = rowSums (okOutcome fitC1).n_features
      ((okOutcome fitC1).Bernoulli_matrix.take fitC1.trials_executed) ∧
    (okOutcome fitC1).delta = binomPpf (1 - (cfgEarly 10 (1 / 2)).alpha)
      (cfgEarly 10 (1 / 2)).n_bootstraps (okOutcome fitC1).p := by
  have hmain := claim1_amended randint5 demoLib sched0 (cfgEarly 10 (1 / 2))
    data2 labels1 0 (okOutcome fitC1) rfl (by decide) (by decide)
  exact ⟨rfl, by decide, by decide, hmain.1, hmain.2⟩

/-- Witness for the amended C2 on the early-stopped fixture. -/
theorem claim2_witness :
    (cfgEarly 10 (1 / 4)).parallel = none ∧
    (cfgEarly 10 (1 / 4)).min_improv ≠ 0 ∧
    fitC2.result = Except.ok (okOutcome fitC2) ∧
    fitC2.divisors = List.range fitC2.trials_executed ∧
    (okOutcome fitC2).run_time = some 3 ∧ 2 ≤ 3 := by
  have hmain := claim2_amended randint5 demoLib sched0 (cfgEarly 10 (1 / 4))
    data2 labels1 0 (okOutcome fitC2) rfl (by decide) (by decide)
  exact ⟨rfl, by decide, by decide, hmain.1, by decide,
    hmain.2 3 (by decide)⟩

/-- Witness for the amended C3 on the invalid-probability fixture. -/
theorem claim3_witness :
    data2.length = labels1.length ∧
    demoLib cfgC3.fs_method = some constMethod ∧
    (cfgC3.n_select : ℚ) / ((nFeaturesOf data2 : ℕ) : ℚ) + cfgC3.beta > 1 ∧
    1 ≤ cfgC3.n_bootstraps ∧
    fitC3.result = Except.error FitError.invalidProbability ∧
    1 ≤ fitC3.trials_executed := by
  have hmain := claim3_amended randint5 demoLib sched0 cfgC3 data2 labels1 0
    constMethod rfl rfl (by decide) (by decide)
  exact ⟨rfl, rfl, by decide, by decide, hmain.1, hmain.2⟩

/-- Witness for the amended C5 on the early-stopped fixture. -/
theorem claim5_witness :
    fitC5.result = Except.ok (okOutcome fitC5) ∧
    (okOutcome fitC5).run_time = some 2 ∧
    2 + 1 = fitC5.trials_executed ∧
    fitC5.trials_executed ≤ (cfgEarly 5 1).n_bootstraps ∧ 2 ≤ 2 := by
  have hmain := claim5_amended randint5 demoLib sched0 (cfgEarly 5 1) data2
    labels1 0 (okOutcome fitC5) 2 rfl (by decide) (by decide) (by decide)
  exact ⟨by decide, by decide, hmain.1, hmain.2.1, hmain.2.2⟩

/-- Witness for C6 on the unresolvable-method fixture. -/
theorem claim6_witness :
    data2.length = labels1.length ∧
    demoLib cfgC6.fs_method = none ∧
    fitC6 = ⟨Except.error FitError.methodNotFound, 0, []⟩ := by
  exact ⟨rfl, rfl, claim6_thm randint5 demoLib sched0 cfgC6 data2 labels1 0
    rfl rfl⟩

set_option maxRecDepth 100000 in
set_option maxHeartbeats 4000000 in
/-- Witness for C7 on the ten-feature fixture. -/
theorem claim7_witness :
    fitC7.result = Except.ok (okOutcome fitC7) ∧
    (okOutcome fitC7).n_features = 10 ∧
    (okOutcome fitC7).p = 3 / 10 ∧ (okOutcome fitC7).delta = 41 := by
  have hres : fitC7.result = Except.ok (okOutcome fitC7) := by decide
  have hnf : (okOutcome fitC7).n_features = 10 := by decide
  have hmain := claim7_thm randint5 demoLib sched0 "const0" none 0 data10
    labels1 0 (okOutcome fitC7) hres hnf
  exact ⟨hres, hnf, hmain.1, hmain.2⟩

/-- Witness for the amended C8 on the inclusive-threshold fixture. -/
theorem claim8_witness :
    fitC8.result = Except.ok (okOutcome fitC8) ∧
    0 < (okOutcome fitC8).n_features ∧
    (okOutcome fitC8).z.getD 0 0 = (cfgC8.n_bootstraps : ℚ) ∧
    cfgC8.alpha < 1 ∧
    (okOutcome fitC8).p ^ cfgC8.n_bootstraps ≤ cfgC8.alpha ∧
    0 ∈ (okOutcome fitC8).selected_features := by
  exact ⟨by decide, by decide, by decide, by decide, by decide,
    claim8_amended randint5 demoLib sched0 cfgC8 data2 labels1 0
      (okOutcome fitC8) 0 (by decide) (by decide) (by decide) (by decide)
      (by decide)⟩

/-- Witness for the amended C9 on the sequential fixture. -/
theorem claim9_witness :
    fitC9.result = Except.ok (okOutcome fitC9) ∧
    (okOutcome fitC9).Bernoulli_matrix.length = cfgC9.n_bootstraps ∧
    cfgC9.min_improv = 0 ∧
    (okOutcome fitC9).run_time = none := by
  have hmain := claim9_amended randint5 demoLib sched0 cfgC9 data2 labels1 0
    (okOutcome fitC9) (by decide)
  exact ⟨by decide, hmain.1, rfl, hmain.2.2 (Or.inr rfl)⟩

/-- Witness for C10 on the heap fixture. -/
theorem claim10_witness :
    heapFitC10.2 = Except.ok [] ∧
    heapFitC10.1.getD 0 (PyVal.arr1 []) = heapC10.getD 0 (PyVal.arr1 []) ∧
    heapFitC10.1.getD 1 (PyVal.arr1 []) = heapC10.getD 1 (PyVal.arr1 []) ∧
    hGet2 heapFitC10.1 heapC10.length = castData (hGet2 heapC10 0) ∧
    hGet1 heapFitC10.1 (heapC10.length + 1) = castLabels (hGet1 heapC10 1) := by
  have hok : (heapFit randint5 demoLib sched0 (cfgEarly 3 0) 0 1 heapC10 0).2
      = Except.ok [] := by decide
  have hmain := claim10_thm randint5 demoLib sched0 (cfgEarly 3 0) 0 1
    heapC10 0 [] (by decide) (by decide) hok
  exact ⟨hok, hmain.1 0 (PyVal.arr1 []) (by decide),
    hmain.1 1 (PyVal.arr1 []) (by decide), hmain.2.1, hmain.2.2⟩

end NPFS
